import Mathlib

/-!
Verification development for the signal-scanning engine of the
mentat-gui repository (src/signal_scanner.py, src/data_fetcher.py).

Modelling conventions:
* IEEE double values are modelled as real numbers (ℝ).
* A pandas missing value (NaN) is modelled as `none : Option ℝ`; pandas
  float series with possible NaN entries are `List (Option ℝ)`, and
  series known to be NaN-free (e.g. the aligned table) are `List ℝ`.
* Dates are modelled by their position in the common daily index (ℕ).
* pandas `Series.std()` uses ddof = 1 (sample standard deviation) and
  returns NaN for series of length ≤ 1; this is `stdPandas` below.
-/

namespace Mentat

/-- Arithmetic mean of a list, `np.mean` / `Series.mean`: sum divided by
length (0 for the empty list under real division-by-zero conventions;
the sources only take means of nonempty data or guard the result). -/
noncomputable def listMean (l : List ℝ) : ℝ := l.sum / l.length

/-- Sum of squared deviations from the mean, the shared numerator of
variance/standard deviation and of the Pearson denominator. -/
noncomputable def sumSqDev (l : List ℝ) : ℝ :=
  ∑ i ∈ Finset.range l.length, (l.getD i 0 - listMean l) ^ 2

/-- Sample standard deviation with ddof = 1, as used by pandas
`Series.std()` for series of length ≥ 2. -/
noncomputable def sampleStd (l : List ℝ) : ℝ :=
  Real.sqrt (sumSqDev l / ((l.length : ℝ) - 1))

/-- pandas `Series.std()`: sample standard deviation, NaN (modelled as
`none`) when fewer than two observations are available (ddof = 1). -/
noncomputable def stdPandas (l : List ℝ) : Option ℝ :=
  if l.length ≤ 1 then none else some (sampleStd l)

/-- Cross sum of products of deviations, the Pearson numerator
(`numerator` in `correlate_numba_inner`, equivalently the off-diagonal
covariance entry inside `np.corrcoef`). -/
noncomputable def crossDev (x y : List ℝ) : ℝ :=
  ∑ i ∈ Finset.range x.length, (x.getD i 0 - listMean x) * (y.getD i 0 - listMean y)

/-- Pearson correlation of two equal-length slices as computed by both
paths of the scanner: `np.corrcoef(x, y)[0, 1]` with a NaN result
replaced by 0 (`_correlate_numpy`, signal_scanner.py lines 177-179), and
`correlate_numba_inner` which returns 0 when the denominator
`sqrt(sum_x_sq * sum_y_sq)` is zero (lines 208-212).  In real
arithmetic `np.corrcoef` yields NaN exactly when that denominator is
zero, so one definition models both code paths. -/
noncomputable def pearson (x y : List ℝ) : ℝ :=
  let den := Real.sqrt (sumSqDev x * sumSqDev y)
  if den = 0 then 0 else crossDev x y / den

/-- Python slicing of the two series at a given lag
(signal_scanner.py lines 158-166 and 216-222):
for `lag < 0`, `x = lead_data[-lag:]`, `y = lag_data[:lag]`;
for `lag ≥ 0`, `x = lead_data[:-lag]` (whole list when `lag = 0`),
`y = lag_data[lag:]`. -/
def sliceAt (leadData lagData : List ℝ) (lag : ℤ) : List ℝ × List ℝ :=
  if lag < 0 then
    (leadData.drop (-lag).toNat, lagData.take (lagData.length - (-lag).toNat))
  else
    (leadData.take (leadData.length - lag.toNat), lagData.drop lag.toNat)

/-- Both slices truncated to their common length
(`min_len = min(len(x), len(y)); x = x[:min_len]; y = y[:min_len]`). -/
def truncSlices (leadData lagData : List ℝ) (lag : ℤ) : List ℝ × List ℝ :=
  let p := sliceAt leadData lagData lag
  let m := min p.1.length p.2.length
  (p.1.take m, p.2.take m)

/-- Correlation entry written at one lag of the window: 0 when fewer
than 10 paired observations remain (`if min_len < 10:
correlations[lag + max_lag] = 0; continue`), otherwise the Pearson
coefficient of the truncated slices. -/
noncomputable def corrAtLag (leadData lagData : List ℝ) (lag : ℤ) : ℝ :=
  let p := sliceAt leadData lagData lag
  let m := min p.1.length p.2.length
  if m < 10 then 0 else pearson (p.1.take m) (p.2.take m)

/-- Full lag-correlation profile of one ordered pair: the array
`correlations` of size `2 * max_lag + 1` filled by the loop
`for lag in range(-max_lag, max_lag + 1)`, entry for lag `ℓ` stored at
index `ℓ + max_lag` (`_correlate_numpy` / `_correlate_numba`). -/
noncomputable def correlate (leadData lagData : List ℝ) (maxLag : ℕ) : List ℝ :=
  (List.range (2 * maxLag + 1)).map
    (fun (i : ℕ) => corrAtLag leadData lagData ((i : ℤ) - (maxLag : ℤ)))

/-! Ranker (`_calculate_correlations`, `_get_top_correlations`,
`_calculate_z_scores`). -/

/-- Tail worker of `np.argmax(np.abs(correlations))`: scan the rest of
the list keeping the first index whose absolute value strictly exceeds
the best seen so far. -/
noncomputable def argmaxAbsAux : ℕ → ℕ → ℝ → List ℝ → ℕ
  | best, _, _, [] => best
  | best, idx, bv, v :: rest =>
      if bv < |v| then argmaxAbsAux idx (idx + 1) |v| rest
      else argmaxAbsAux best (idx + 1) bv rest

/-- Model of `np.argmax(np.abs(l))`: index of the first occurrence of the
maximal absolute value (0 on the empty list, on which numpy raises; the
scanner only applies it to the nonempty profile array). -/
noncomputable def argmaxAbs (l : List ℝ) : ℕ :=
  match l with
  | [] => 0
  | v :: rest => argmaxAbsAux 0 1 |v| rest

/-- Result row appended per ordered pair in `_calculate_correlations`
(signal_scanner.py lines 144-150). -/
structure Row where
  leadSeries : String
  lagSeries : String
  correlation : ℝ
  lag : ℤ
  absCorrelation : ℝ

/-- Row built for one ordered pair: best lag index by `np.argmax` over
absolute correlations, `best_lag = best_lag_idx - max_lag`
(signal_scanner.py lines 139-150). -/
noncomputable def mkRow (leadName lagName : String) (x y : List ℝ) (maxLag : ℕ) : Row :=
  let cs := correlate x y maxLag
  let k := argmaxAbs cs
  { leadSeries := leadName, lagSeries := lagName,
    correlation := cs.getD k 0, lag := (k : ℤ) - (maxLag : ℤ),
    absCorrelation := |cs.getD k 0| }

/-- Model of `_calculate_correlations`: one row per ordered pair of
distinct columns, enumerated row-major
(`for i, lead in enumerate: for j, lag in enumerate: if i == j: continue`). -/
noncomputable def calcCorrelations (df : List (String × List ℝ)) (maxLag : ℕ) : List Row :=
  df.enum.flatMap (fun p =>
    df.enum.filterMap (fun q =>
      if p.1 = q.1 then none
      else some (mkRow p.2.1 q.2.1 p.2.2 q.2.2 maxLag)))

/-- Ordering used to model `DataFrame.nlargest(top_n, 'abs_correlation')`
with the default `keep='first'`: descending absolute correlation, ties
resolved toward the earlier original position (pandas keeps and orders
first occurrences; modelling assumption: `nlargest(n, keep='first')`
equals a stable descending sort followed by `head(n)`). -/
def topRel (a b : ℕ × Row) : Prop :=
  b.2.absCorrelation < a.2.absCorrelation ∨
    (a.2.absCorrelation = b.2.absCorrelation ∧ a.1 ≤ b.1)

noncomputable instance : DecidableRel topRel := fun _ _ => Classical.dec _

instance : IsTotal (ℕ × Row) topRel where
  total a b := by
    rcases lt_trichotomy a.2.absCorrelation b.2.absCorrelation with h | h | h
    · exact Or.inr (Or.inl h)
    · rcases Nat.le_total a.1 b.1 with h2 | h2
      · exact Or.inl (Or.inr ⟨h, h2⟩)
      · exact Or.inr (Or.inr ⟨h.symm, h2⟩)
    · exact Or.inl (Or.inl h)

instance : IsTrans (ℕ × Row) topRel where
  trans a b c hab hbc := by
    rcases hab with h1 | ⟨e1, i1⟩
    · rcases hbc with h2 | ⟨e2, _⟩
      · exact Or.inl (h2.trans h1)
      · exact Or.inl (e2 ▸ h1)
    · rcases hbc with h2 | ⟨e2, i2⟩
      · exact Or.inl (e1 ▸ h2)
      · exact Or.inr ⟨e1.trans e2, i1.trans i2⟩

/-- Rows tagged with their original enumeration position and stably
sorted by descending absolute correlation: the order produced by the
`nlargest` fast path (`n < len`), which selects with
`argsort(kind="mergesort")`, a stable sort. -/
noncomputable def sortRowsIdx (rows : List Row) : List (ℕ × Row) :=
  rows.enum.insertionSort topRel

/-- Stable ascending order on tagged rows: ascending absolute
correlation, ties kept in original position order (what a stable
ascending argsort of the key column produces). -/
def ascRel (a b : ℕ × Row) : Prop :=
  a.2.absCorrelation < b.2.absCorrelation ∨
    (a.2.absCorrelation = b.2.absCorrelation ∧ a.1 ≤ b.1)

noncomputable instance : DecidableRel ascRel := fun _ _ => Classical.dec _

instance : IsTotal (ℕ × Row) ascRel where
  total a b := by
    rcases lt_trichotomy a.2.absCorrelation b.2.absCorrelation with h | h | h
    · exact Or.inl (Or.inl h)
    · rcases Nat.le_total a.1 b.1 with h2 | h2
      · exact Or.inl (Or.inr ⟨h, h2⟩)
      · exact Or.inr (Or.inr ⟨h.symm, h2⟩)
    · exact Or.inr (Or.inl h)

instance : IsTrans (ℕ × Row) ascRel where
  trans a b c hab hbc := by
    rcases hab with h1 | ⟨e1, i1⟩
    · rcases hbc with h2 | ⟨e2, _⟩
      · exact Or.inl (h1.trans h2)
      · exact Or.inl (e2 ▸ h1)
    · rcases hbc with h2 | ⟨e2, i2⟩
      · exact Or.inl (e1 ▸ h2)
      · exact Or.inr ⟨e1.trans e2, i1.trans i2⟩

/-- The `nlargest` slow path (`n ≥ len`):
`sort_values(ascending=False).head(n)`.  pandas computes a descending
`sort_values` as the blockwise reversal of the ascending argsort
(`indexer = indexer[::-1]` in `nargsort`), so tied rows come out in
reversed position order; modelled with a stable ascending sort (numpy
quicksort degenerates to stable insertion sort on the short arrays this
scanner produces) followed by the reversal. -/
noncomputable def sortValuesDescIdx (rows : List Row) : List (ℕ × Row) :=
  (rows.enum.insertionSort ascRel).reverse

/-- Row order produced by `nlargest(nn, keep='first')` for `nn` rows
requested: the mergesort-based stable selection when `nn < len`, the
reversed ascending `sort_values` when `nn ≥ len`
(pandas `SelectNSeries.compute`). -/
noncomputable def nlargestIdx (rows : List Row) (nn : ℕ) : List (ℕ × Row) :=
  if rows.length ≤ nn then sortValuesDescIdx rows else sortRowsIdx rows

/-- Model of `_calculate_z_scores` (signal_scanner.py lines 259-268):
z = (selected − mean(all)) / std(all) with pandas ddof = 1; an exact-zero
std short-circuits to a list of zeros; a NaN std (population of length
≤ 1) fails the `== 0` test and propagates NaN (`none`). -/
noncomputable def calcZScores (allCorr selected : List ℝ) : List (Option ℝ) :=
  match stdPandas allCorr with
  | none => selected.map (fun _ => none)
  | some s =>
      if s = 0 then selected.map (fun _ => some 0)
      else selected.map (fun x => some ((x - listMean allCorr) / s))

/-- Model of `_get_top_correlations` (signal_scanner.py lines 236-257):
empty input gives an empty result; otherwise `nlargest(top_n,
keep='first')` — the path-dependent row order of `nlargestIdx`
truncated to `top_n` (empty for `top_n ≤ 0`) — and a `z_score` column
computed against the full population. -/
noncomputable def getTopCorrelations (rows : List Row) (topN : ℤ) : List (Row × Option ℝ) :=
  if rows.isEmpty then []
  else
    let top := ((nlargestIdx rows topN.toNat).map Prod.snd).take topN.toNat
    top.zip (calcZScores (rows.map Row.correlation) (top.map Row.correlation))

/-! Composite builder (`_build_composite_signal`). -/

/-- Number of rows of a column table (all columns of an aligned table
have this common length). -/
def numRows (df : List (String × List ℝ)) : ℕ :=
  match df with
  | [] => 0
  | c :: _ => c.2.length

/-- Per-column z-score used by the composite builder
(signal_scanner.py lines 289-298): subtract the column mean and divide
by the ddof-1 standard deviation when it is strictly positive, otherwise
(zero std, or NaN std for a length-1 column) an all-zero series. -/
noncomputable def zscoreColumn (data : List ℝ) : List ℝ :=
  let m := listMean data
  match stdPandas data with
  | some s => if 0 < s then data.map (fun x => (x - m) / s) else data.map (fun _ => 0)
  | none => data.map (fun _ => 0)

/-- The `z_scores` dictionary: every nonempty column of the (aligned,
hence NaN-free, so `dropna()` is the identity) table mapped to its
z-score series. -/
noncomputable def buildZScores (df : List (String × List ℝ)) : List (String × List ℝ) :=
  df.filterMap (fun c => if 0 < c.2.length then some (c.1, zscoreColumn c.2) else none)

/-- Model of `Series.shift(-lag)`: position `i` of the result holds the
value at position `i + lag` of the input, NaN (`none`) when that source
position falls outside the series. -/
def shiftBy (lag : ℤ) (xs : List ℝ) : List (Option ℝ) :=
  (List.range xs.length).map (fun (i : ℕ) =>
    if (i : ℤ) + lag < 0 ∨ (xs.length : ℤ) ≤ (i : ℤ) + lag then none
    else some (xs.getD ((i : ℤ) + lag).toNat 0))

/-- One loop iteration of `_build_composite_signal`
(signal_scanner.py lines 304-324): skip the relationship unless both of
its series are in `z_scores`; select the lead z-series when `lag < 0`,
else the lag z-series; shift by `-lag` when `lag ≠ 0`; contribute the
shifted series multiplied by the signed correlation, with weight
`abs(correlation)`. -/
noncomputable def contribution (zs : List (String × List ℝ)) (r : Row) :
    Option (List (Option ℝ) × ℝ) :=
  match zs.lookup r.leadSeries, zs.lookup r.lagSeries with
  | some zLead, some zLag =>
      let sel := if r.lag < 0 then zLead else zLag
      let shifted := if r.lag ≠ 0 then shiftBy r.lag sel else sel.map some
      some (shifted.map (fun o => o.map (fun v => v * r.correlation)), |r.correlation|)
  | _, _ => none

/-- Final z-score renormalization of the combined series
(signal_scanner.py line 337, `(x - x.mean()) / x.std()`): when the
ddof-1 std is zero (constant series: every entry becomes 0/0) or NaN
(length ≤ 1), every entry of the result is NaN (`none`). -/
noncomputable def renormalize (raw : List ℝ) : List (Option ℝ) :=
  match stdPandas raw with
  | none => raw.map (fun _ => none)
  | some s =>
      if s = 0 then raw.map (fun _ => none)
      else raw.map (fun x => some ((x - listMean raw) / s))

/-- Model of `_build_composite_signal` (signal_scanner.py lines 270-339).
Row `t` of `(composite_df * weights_array).sum(axis=1)` is the sum over
the contributions present at `t` (pandas `sum` skips NaN; an all-NaN row
sums to 0.0), divided by the full scalar weight total
`weights_array.sum()`; a zero weight total makes every row 0.0/0.0 = NaN
(`none`).  The result is then renormalized. -/
noncomputable def buildCompositeSignal (df : List (String × List ℝ)) (top : List Row) :
    List (Option ℝ) :=
  if top.isEmpty then []
  else
    let zs := buildZScores df
    let parts := top.filterMap (contribution zs)
    if parts.isEmpty then []
    else
      let wsum := (parts.map Prod.snd).sum
      let n := numRows df
      if wsum = 0 then (List.range n).map (fun _ => none)
      else
        renormalize ((List.range n).map (fun t =>
          (parts.map (fun p =>
            match p.1.getD t none with
            | some v => v * p.2
            | none => 0)).sum / wsum))

/-! Data fetcher and alignment (`data_fetcher.py`). -/

/-- Drop columns that hold no observation at all
(`df.dropna(axis=1, how='all')`). -/
def dropAllNoneCols (tbl : List (String × List (Option ℝ))) : List (String × List (Option ℝ)) :=
  tbl.filter (fun c => c.2.any Option.isSome)

/-- Worker for forward fill with a limit of 5: carries the last real
observation and the number of consecutive missing entries filled since
it. -/
def ffillAux (last : Option ℝ) (cnt : ℕ) : List (Option ℝ) → List (Option ℝ)
  | [] => []
  | some v :: rest => some v :: ffillAux (some v) 0 rest
  | none :: rest =>
      match last with
      | none => none :: ffillAux none 0 rest
      | some v =>
          if cnt < 5 then some v :: ffillAux (some v) (cnt + 1) rest
          else none :: ffillAux last (cnt + 1) rest

/-- Model of `df.fillna(method='ffill', limit=5)` on one column: each
gap is filled forward from the last observation for at most 5
consecutive positions; leading missing values stay missing. -/
def ffillLimit5 (col : List (Option ℝ)) : List (Option ℝ) := ffillAux none 0 col

/-- Common row count of a raw (possibly missing-valued) table. -/
def rawNumRows (tbl : List (String × List (Option ℝ))) : ℕ :=
  match tbl with
  | [] => 0
  | c :: _ => c.2.length

/-- Model of `_align_dataframe` (data_fetcher.py lines 141-163): drop
all-missing columns, forward-fill with limit 5, then drop every row
that still has a missing value (`df.dropna()`).  The function never
fails: there is no minimum-overlap check. -/
def alignDataframe (tbl : List (String × List (Option ℝ))) : List (String × List ℝ) :=
  let t1 := (dropAllNoneCols tbl).map (fun c => (c.1, ffillLimit5 c.2))
  let keep := (List.range (rawNumRows t1)).filter
    (fun i => t1.all (fun c => (c.2.getD i none).isSome))
  t1.map (fun c => (c.1, keep.map (fun i => (c.2.getD i none).getD 0)))

/-- Outcome of one configured series fetch, as the caller of
`fetcher_registry.get(source)` / `fetcher.fetch(...)` observes it:
no registered fetcher for the source, the fetcher raised an exception,
or it returned a (possibly empty) date-indexed series. -/
inductive FetchOutcome where
  | noFetcher : FetchOutcome
  | fetchRaises : FetchOutcome
  | fetched (data : List (ℕ × ℝ)) : FetchOutcome

/-- Model of `_fetch_single_series` (data_fetcher.py lines 94-139): a
missing fetcher, any exception, and an empty fetch all produce the
empty series; only a successful nonempty fetch returns data.  The
function returns in every case (the `except Exception` handler absorbs
every fetcher error). -/
def fetchSingleSeries : FetchOutcome → List (ℕ × ℝ)
  | .noFetcher => []
  | .fetchRaises => []
  | .fetched data => data

/-- Insertion into a sorted duplicate-free date list. -/
def insDate (x : ℕ) : List ℕ → List ℕ
  | [] => [x]
  | y :: ys => if x < y then x :: y :: ys else if x = y then y :: ys else y :: insDate x ys

/-- Sorted union of the date indexes of the successful series, the row
index produced by `pd.concat(series_dict, axis=1)`. -/
def unionDates (good : List (String × List (ℕ × ℝ))) : List ℕ :=
  (good.flatMap (fun g => g.2.map Prod.fst)).foldr insDate []

/-- Model of `pd.concat(series_dict, axis=1)`: one column per series
over the union index, missing (`none`) at dates the series does not
cover. -/
def concatTable (good : List (String × List (ℕ × ℝ))) : List (String × List (Option ℝ)) :=
  good.map (fun g => (g.1, (unionDates good).map (fun d => g.2.lookup d)))

/-- Model of `fetch_all_series` (data_fetcher.py lines 35-92): fetch
every configured series, keep the nonempty results, return the empty
table when none remain, otherwise concatenate and align. -/
def fetchAllSeries (cfgs : List (String × FetchOutcome)) : List (String × List ℝ) :=
  let good := cfgs.filterMap (fun c =>
    let d := fetchSingleSeries c.2
    if d.isEmpty then none else some (c.1, d))
  if good.isEmpty then [] else alignDataframe (concatTable good)

/-! Scan orchestrator (`scan_signals`). -/

/-- Python `value or default` on an optional integer argument: `None`
and `0` are both falsy, so both select the default
(`top_n = top_n or self.top_n`, signal_scanner.py line 66). -/
def orDefaultInt (arg : Option ℤ) (dflt : ℤ) : ℤ :=
  match arg with
  | none => dflt
  | some t => if t = 0 then dflt else t

/-- Python `value or default` for the max-lag argument. -/
def orDefaultNat (arg : Option ℕ) (dflt : ℕ) : ℕ :=
  match arg with
  | none => dflt
  | some t => if t = 0 then dflt else t

/-- Result bundle of one scan (the dictionary built at
signal_scanner.py lines 88-97; the date fields are orchestration
metadata and are not modelled). -/
structure ScanResult where
  seriesCount : ℕ
  dataPoints : ℕ
  maxLagUsed : ℕ
  topCorrelations : List (Row × Option ℝ)
  compositeSignal : List (Option ℝ)
  allCorrelations : List Row

/-- Either an error dictionary (`{"error": ...}`) or a results bundle. -/
inductive ScanOutcome where
  | error (msg : String) : ScanOutcome
  | ok (r : ScanResult) : ScanOutcome

/-- Model of `scan_signals` after the data has been fetched
(signal_scanner.py lines 62-100): resolve defaulted arguments with
Python `or`, fail only when the fetched table is empty (no rows or no
columns), otherwise run ranking and composite building and bundle the
results.  No `top_n` validation exists anywhere on this path. -/
noncomputable def scanSignals (df : List (String × List ℝ))
    (maxLagArg : Option ℕ) (topNArg : Option ℤ) (defMaxLag : ℕ) (defTopN : ℤ) :
    ScanOutcome :=
  let maxLag := orDefaultNat maxLagArg defMaxLag
  let topN := orDefaultInt topNArg defTopN
  if df.isEmpty || numRows df == 0 then ScanOutcome.error "No data available"
  else
    let correlations := calcCorrelations df maxLag
    let top := getTopCorrelations correlations topN
    ScanOutcome.ok
      { seriesCount := df.length, dataPoints := numRows df, maxLagUsed := maxLag,
        topCorrelations := top,
        compositeSignal := buildCompositeSignal df (top.map Prod.fst),
        allCorrelations := correlations }

/-- Constructor test for a scan outcome. -/
def scanIsOk : ScanOutcome → Bool
  | .error _ => false
  | .ok _ => true

/-- Top-correlations list of a scan outcome (empty on error). -/
def scanTop : ScanOutcome → List (Row × Option ℝ)
  | .error _ => []
  | .ok r => r.topCorrelations

/-! Spec-side definitions.  The following definitions are written from
the specification's words, for comparison with the code models above
(refinement claims); they are not translations of the source. -/

/-- Stated claim for the per-pair retention policy: the retained lag
maximizes the absolute correlation over the profile, and among
maximizers has the smallest absolute lag value.  (The further lexical
tie-break on series names does not affect a single pair.) -/
def specRetainedLag (cs : List ℝ) (maxLag : ℕ) (lag : ℤ) : Prop :=
  (∀ k < cs.length, |cs.getD k 0| ≤ |cs.getD (lag + maxLag).toNat 0|) ∧
  (∀ k < cs.length,
    |cs.getD k 0| = |cs.getD (lag + maxLag).toNat 0| → |lag| ≤ |(k : ℤ) - (maxLag : ℤ)|)

/-- Stated claim for the per-relationship series preparation: always
select the relationship's lead-series column, z-score it, and move the
historical leading value forward by the lag (position `t` of the result
holds the z-score at position `t - lag`). -/
noncomputable def specSelectShift (df : List (String × List ℝ)) (r : Row) :
    Option (List (Option ℝ)) :=
  match (buildZScores df).lookup r.leadSeries with
  | some z =>
      some ((List.range z.length).map (fun (t : ℕ) =>
        if (t : ℤ) - r.lag < 0 ∨ (z.length : ℤ) ≤ (t : ℤ) - r.lag then none
        else some (z.getD ((t : ℤ) - r.lag).toNat 0)))
  | none => none

/-- Per-relationship shifted z-score series and weight as the spec's
combination formula consumes them: the shifted z-score itself (not
multiplied by the correlation) with weight `|correlation|`.  The
selection and shift direction are the code's own, so that the
combination formula is compared in isolation. -/
noncomputable def specPart (zs : List (String × List ℝ)) (r : Row) :
    Option (List (Option ℝ) × ℝ) :=
  match zs.lookup r.leadSeries, zs.lookup r.lagSeries with
  | some zLead, some zLag =>
      let sel := if r.lag < 0 then zLead else zLag
      let shifted := if r.lag ≠ 0 then shiftBy r.lag sel else sel.map some
      some (shifted, |r.correlation|)
  | _, _ => none

/-- Stated combination formula:
`composite[t] = Σ(weight_i · shifted_zscore_i[t]) / Σ(weight_i)` where
at each date only the contributors present at that date enter both the
sum and the weight denominator; a date with no contributor at all is
missing. -/
noncomputable def specCombine (parts : List (List (Option ℝ) × ℝ)) (n : ℕ) :
    List (Option ℝ) :=
  (List.range n).map (fun t =>
    let present := parts.filterMap (fun p => (p.1.getD t none).map (fun v => (v, p.2)))
    if present.isEmpty then none
    else some ((present.map (fun q => q.2 * q.1)).sum / (present.map Prod.snd).sum))

/-- Stated re-normalization: z-score the combined series over its own
non-missing span; when the standard deviation is zero, leave the series
unscaled. -/
noncomputable def specRenormalize (xs : List (Option ℝ)) : List (Option ℝ) :=
  let present := xs.filterMap id
  let s := sampleStd present
  if s = 0 then xs
  else xs.map (Option.map (fun v => (v - listMean present) / s))

/-- Stated composite of C1: combine the shifted z-score series with the
correlation-magnitude weights, then re-normalize. -/
noncomputable def specComposite (df : List (String × List ℝ)) (top : List Row) :
    List (Option ℝ) :=
  specRenormalize (specCombine (top.filterMap (specPart (buildZScores df))) (numRows df))

/-! Amended composite formula: the pointwise description of what
`_build_composite_signal` actually computes. -/

/-- Test used by the builder's loop: both series of the relationship
appear in the z-score dictionary. -/
def hasBoth (zs : List (String × List ℝ)) (r : Row) : Bool :=
  (zs.lookup r.leadSeries).isSome && (zs.lookup r.lagSeries).isSome

/-- Amended per-date term of one relationship: the z-score of the
selected series (lead for negative lag, otherwise the lag series) read
at position `t + lag`, multiplied by the signed correlation and by the
weight `|correlation|`; zero when the relationship is skipped or the
shifted position falls outside the window. -/
noncomputable def amendedTerm (zs : List (String × List ℝ)) (r : Row) (t : ℕ) : ℝ :=
  match zs.lookup r.leadSeries, zs.lookup r.lagSeries with
  | some zLead, some zLag =>
      let sel := if r.lag < 0 then zLead else zLag
      if (t : ℤ) + r.lag < 0 ∨ (sel.length : ℤ) ≤ (t : ℤ) + r.lag then 0
      else |r.correlation| * (sel.getD ((t : ℤ) + r.lag).toNat 0 * r.correlation)
  | _, _ => 0

/-- Amended denominator: the full weight sum over every retained
relationship, independent of the date. -/
noncomputable def amendedWeight (zs : List (String × List ℝ)) (top : List Row) : ℝ :=
  ((top.filter (hasBoth zs)).map (fun r => |r.correlation|)).sum

/-- Amended pre-normalization composite: at every date, the sum of the
per-relationship terms divided by the full weight sum. -/
noncomputable def amendedRaw (df : List (String × List ℝ)) (top : List Row) : List ℝ :=
  let zs := buildZScores df
  (List.range (numRows df)).map (fun t =>
    (top.map (fun r => amendedTerm zs r t)).sum / amendedWeight zs top)

/-- Concrete constant series used by several counterexamples: ten
observations, all zero. -/
def zeros10 : List ℝ := List.replicate 10 0

/-- Concrete correlation row used by witnesses. -/
def rowAB : Row :=
  { leadSeries := "A", lagSeries := "B", correlation := 1, lag := 0, absCorrelation := 1 }

/-- Second concrete row, tied with `rowAB` on absolute correlation but
distinguishable by its series names. -/
def rowBA : Row :=
  { leadSeries := "B", lagSeries := "A", correlation := 1, lag := 0, absCorrelation := 1 }

/-- Concrete fetch configuration used by witnesses: one series that
fetches successfully, one whose source has no registered fetcher. -/
def cfgsW : List (String × FetchOutcome) :=
  [("A", FetchOutcome.fetched [(0, 1)]), ("B", FetchOutcome.noFetcher)]

/-- Concrete two-column aligned table whose z-scored columns are
`[-1, 0, 1]` and `[1, 0, -1]`. -/
def dfC4 : List (String × List ℝ) := [("A", [0, 1, 2]), ("B", [2, 1, 0])]

/-- Concrete relationship with positive lag and correlation 1. -/
def rC4 : Row :=
  { leadSeries := "A", lagSeries := "B", correlation := 1, lag := 1, absCorrelation := 1 }

/-- Concrete z-score dictionary used by witnesses. -/
def zsW : List (String × List ℝ) := [("A", [1, 2]), ("B", [3, 4])]

/-- Concrete one-relationship composite input: both columns `[0, 1, 2]`
and a single retained relationship with correlation −1/2 at lag 0. -/
def dfC1 : List (String × List ℝ) := [("A", [0, 1, 2]), ("B", [0, 1, 2])]

/-- Concrete relationship with negative correlation at lag 0. -/
noncomputable def rC1 : Row :=
  { leadSeries := "A", lagSeries := "B", correlation := -(1/2), lag := 0,
    absCorrelation := 1/2 }

/-! Helper lemmas. -/

theorem correlate_length (x y : List ℝ) (m : ℕ) :
    (correlate x y m).length = 2 * m + 1 := by
  unfold correlate
  rw [List.length_map, List.length_range]

theorem correlate_getD (x y : List ℝ) (m : ℕ) {i : ℕ} (h : i < 2 * m + 1) :
    (correlate x y m).getD i 0 = corrAtLag x y ((i : ℤ) - (m : ℤ)) := by
  unfold correlate
  rw [List.getD_eq_getElem?_getD, List.getElem?_map, List.getElem?_range h]
  rfl

theorem getD_replicate_zero (n i : ℕ) : (List.replicate n (0 : ℝ)).getD i 0 = 0 := by
  induction n generalizing i with
  | zero => simp
  | succ k ih =>
    cases i with
    | zero => simp [List.replicate]
    | succ j => simp only [List.replicate, List.getD_cons_succ]; exact ih j

/-- C3 (amended): a lag at which fewer than 10 paired observations
remain is not skipped silently; it contributes an entry with
correlation exactly 0 to the profile, whose length is always
`2 * max_lag + 1`. -/
theorem C3_short_lag_zero_entry (lead lagD : List ℝ) (m : ℕ) :
    (correlate lead lagD m).length = 2 * m + 1 ∧
    ∀ lag : ℤ, -(m : ℤ) ≤ lag → lag ≤ (m : ℤ) →
      min (sliceAt lead lagD lag).1.length (sliceAt lead lagD lag).2.length < 10 →
      (correlate lead lagD m).getD (lag + m).toNat 0 = 0 := by
  refine ⟨correlate_length lead lagD m, fun lag h1 h2 hshort => ?_⟩
  have hnn : 0 ≤ lag + (m : ℤ) := by omega
  have hidx : (lag + (m : ℤ)).toNat < 2 * m + 1 := by omega
  rw [correlate_getD lead lagD m hidx]
  have hlag : ((lag + (m : ℤ)).toNat : ℤ) - (m : ℤ) = lag := by omega
  rw [hlag]
  simp only [corrAtLag]
  rw [if_pos hshort]

/-- C3 (counterexample): with empty inputs and `max_lag = 0`, the only
lag has 0 < 10 paired observations, yet the returned profile is `[0]` —
a zero-correlation entry, not an omitted one. -/
theorem C3_counterexample :
    correlate [] [] 0 = [0] ∧
    min (sliceAt [] [] 0).1.length (sliceAt [] [] 0).2.length < 10 ∧
    correlate [] [] 0 ≠ [] := by
  refine ⟨?_, by decide, by simp [correlate]⟩
  simp [correlate, corrAtLag, sliceAt, List.range_succ]

/-- C3 (witness): the amended theorem applied at the concrete input of
the counterexample. -/
theorem C3_witness :
    (-(0 : ℤ) ≤ 0 ∧ (0 : ℤ) ≤ 0 ∧
      min (sliceAt [] [] 0).1.length (sliceAt [] [] 0).2.length < 10) ∧
    (correlate [] [] 0).getD ((0 : ℤ) + 0).toNat 0 = 0 := by
  refine ⟨⟨le_refl _, le_refl _, by decide⟩, ?_⟩
  exact (C3_short_lag_zero_entry [] [] 0).2 0 (by decide) (by decide) (by decide)

theorem sumSqDev_nonneg (l : List ℝ) : 0 ≤ sumSqDev l :=
  Finset.sum_nonneg (fun _ _ => sq_nonneg _)

theorem crossDev_sq_le (x y : List ℝ) (h : x.length = y.length) :
    crossDev x y ^ 2 ≤ sumSqDev x * sumSqDev y := by
  unfold crossDev sumSqDev
  rw [← h]
  exact Finset.sum_mul_sq_le_sq_mul_sq (Finset.range x.length)
    (fun i => x.getD i 0 - listMean x) (fun i => y.getD i 0 - listMean y)

theorem pearson_bounds (x y : List ℝ) (h : x.length = y.length) :
    -1 ≤ pearson x y ∧ pearson x y ≤ 1 := by
  unfold pearson
  by_cases hden : Real.sqrt (sumSqDev x * sumSqDev y) = 0
  · rw [if_pos hden]; norm_num
  · rw [if_neg hden]
    have hnn : 0 ≤ sumSqDev x * sumSqDev y :=
      mul_nonneg (sumSqDev_nonneg x) (sumSqDev_nonneg y)
    have hpos : 0 < Real.sqrt (sumSqDev x * sumSqDev y) :=
      lt_of_le_of_ne (Real.sqrt_nonneg _) (Ne.symm hden)
    have habs : |crossDev x y| ≤ Real.sqrt (sumSqDev x * sumSqDev y) := by
      calc |crossDev x y| = Real.sqrt (crossDev x y ^ 2) := (Real.sqrt_sq_eq_abs _).symm
        _ ≤ Real.sqrt (sumSqDev x * sumSqDev y) := Real.sqrt_le_sqrt (crossDev_sq_le x y h)
    have : |crossDev x y / Real.sqrt (sumSqDev x * sumSqDev y)| ≤ 1 := by
      rw [abs_div, abs_of_pos hpos]
      exact (div_le_one hpos).mpr habs
    exact abs_le.mp this

theorem pearson_degenerate (x y : List ℝ)
    (h : sumSqDev x = 0 ∨ sumSqDev y = 0) : pearson x y = 0 := by
  unfold pearson
  have hz : sumSqDev x * sumSqDev y = 0 := by
    rcases h with h | h <;> rw [h] <;> ring
  rw [hz, Real.sqrt_zero, if_pos rfl]

theorem corrAtLag_eq_trunc (x y : List ℝ) (lag : ℤ) :
    corrAtLag x y lag =
      if min (sliceAt x y lag).1.length (sliceAt x y lag).2.length < 10 then 0
      else pearson (truncSlices x y lag).1 (truncSlices x y lag).2 := rfl

theorem truncSlices_length (x y : List ℝ) (lag : ℤ) :
    (truncSlices x y lag).1.length = (truncSlices x y lag).2.length := by
  unfold truncSlices
  simp only [List.length_take]
  omega

/-- C5: every correlation value the correlator emits lies in [−1, 1],
and it is exactly 0 whenever either truncated shifted slice has zero
variance (zero sum of squared deviations). -/
theorem C5_correlation_bounded (lead lagD : List ℝ) (m : ℕ) (i : ℕ) (h : i < 2 * m + 1) :
    (-1 ≤ (correlate lead lagD m).getD i 0 ∧ (correlate lead lagD m).getD i 0 ≤ 1) ∧
    ((sumSqDev (truncSlices lead lagD ((i : ℤ) - (m : ℤ))).1 = 0 ∨
      sumSqDev (truncSlices lead lagD ((i : ℤ) - (m : ℤ))).2 = 0) →
      (correlate lead lagD m).getD i 0 = 0) := by
  rw [correlate_getD lead lagD m h, corrAtLag_eq_trunc]
  by_cases hshort :
      min (sliceAt lead lagD ((i : ℤ) - (m : ℤ))).1.length
        (sliceAt lead lagD ((i : ℤ) - (m : ℤ))).2.length < 10
  · rw [if_pos hshort]
    exact ⟨by norm_num, fun _ => rfl⟩
  · rw [if_neg hshort]
    exact ⟨pearson_bounds _ _ (truncSlices_length lead lagD _),
      fun hdeg => pearson_degenerate _ _ hdeg⟩

/-- C5 (witness): the bound theorem applied at a concrete input (empty
series, `max_lag = 0`, profile entry `[0]`). -/
theorem C5_witness :
    (0 < 2 * 0 + 1) ∧
    ((-1 ≤ (correlate [] [] 0).getD 0 0 ∧ (correlate [] [] 0).getD 0 0 ≤ 1) ∧
    ((sumSqDev (truncSlices [] [] ((0 : ℤ) - (0 : ℤ))).1 = 0 ∨
      sumSqDev (truncSlices [] [] ((0 : ℤ) - (0 : ℤ))).2 = 0) →
      (correlate [] [] 0).getD 0 0 = 0)) :=
  ⟨by decide, C5_correlation_bounded [] [] 0 0 (by decide)⟩

theorem argmaxAbsAux_spec (rest : List ℝ) : ∀ (best idx : ℕ) (bv : ℝ),
    (argmaxAbsAux best idx bv rest = best ∧
      ∀ j < rest.length, |rest.getD j 0| ≤ bv) ∨
    (∃ j, j < rest.length ∧ argmaxAbsAux best idx bv rest = idx + j ∧
      bv < |rest.getD j 0| ∧
      (∀ j2 < rest.length, |rest.getD j2 0| ≤ |rest.getD j 0|) ∧
      (∀ j2 < j, |rest.getD j2 0| < |rest.getD j 0|)) := by
  induction rest with
  | nil =>
    intro best idx bv
    left
    exact ⟨rfl, by simp⟩
  | cons v rest2 ih =>
    intro best idx bv
    by_cases hv : bv < |v|
    · have hstep : argmaxAbsAux best idx bv (v :: rest2) =
        argmaxAbsAux idx (idx + 1) |v| rest2 := by
        simp [argmaxAbsAux, hv]
      rcases ih idx (idx + 1) |v| with ⟨hr, hb⟩ | ⟨j, hj, hr, hgt, hball, hstrict⟩
      · right
        refine ⟨0, by simp, by rw [hstep, hr, Nat.add_zero], by simpa using hv, ?_, ?_⟩
        · intro j2 hj2
          cases j2 with
          | zero => simp
          | succ k =>
            simp only [List.getD_cons_succ, List.getD_cons_zero]
            exact hb k (by simpa using hj2)
        · intro j2 hj2
          omega
      · right
        refine ⟨j + 1, by simpa using hj, by rw [hstep, hr]; omega, ?_, ?_, ?_⟩
        · simp only [List.getD_cons_succ]
          exact hv.trans hgt
        · intro j2 hj2
          cases j2 with
          | zero =>
            simp only [List.getD_cons_zero, List.getD_cons_succ]
            exact hgt.le
          | succ k =>
            simp only [List.getD_cons_succ]
            exact hball k (by simpa using hj2)
        · intro j2 hj2
          cases j2 with
          | zero =>
            simp only [List.getD_cons_zero, List.getD_cons_succ]
            exact hgt
          | succ k =>
            simp only [List.getD_cons_succ]
            exact hstrict k (by omega)
    · have hle : |v| ≤ bv := not_lt.mp hv
      have hstep : argmaxAbsAux best idx bv (v :: rest2) =
        argmaxAbsAux best (idx + 1) bv rest2 := by
        simp [argmaxAbsAux, hv]
      rcases ih best (idx + 1) bv with ⟨hr, hb⟩ | ⟨j, hj, hr, hgt, hball, hstrict⟩
      · left
        refine ⟨by rw [hstep, hr], ?_⟩
        intro j2 hj2
        cases j2 with
        | zero => simpa using hle
        | succ k =>
          simp only [List.getD_cons_succ]
          exact hb k (by simpa using hj2)
      · right
        refine ⟨j + 1, by simpa using hj, by rw [hstep, hr]; omega, ?_, ?_, ?_⟩
        · simp only [List.getD_cons_succ]
          exact hgt
        · intro j2 hj2
          cases j2 with
          | zero =>
            simp only [List.getD_cons_zero, List.getD_cons_succ]
            exact hle.trans hgt.le
          | succ k =>
            simp only [List.getD_cons_succ]
            exact hball k (by simpa using hj2)
        · intro j2 hj2
          cases j2 with
          | zero =>
            simp only [List.getD_cons_zero, List.getD_cons_succ]
            exact lt_of_le_of_lt hle hgt
          | succ k =>
            simp only [List.getD_cons_succ]
            exact hstrict k (by omega)

theorem argmaxAbs_spec (l : List ℝ) (hne : l ≠ []) :
    argmaxAbs l < l.length ∧
    (∀ k < l.length, |l.getD k 0| ≤ |l.getD (argmaxAbs l) 0|) ∧
    (∀ k < l.length, |l.getD k 0| = |l.getD (argmaxAbs l) 0| → argmaxAbs l ≤ k) := by
  match l, hne with
  | v :: rest, _ =>
    have hdef : argmaxAbs (v :: rest) = argmaxAbsAux 0 1 |v| rest := rfl
    rcases argmaxAbsAux_spec rest 0 1 |v| with ⟨hr, hb⟩ | ⟨j, hj, hr, hgt, hball, hstrict⟩
    · rw [hdef, hr]
      refine ⟨by simp, ?_, ?_⟩
      · intro k hk
        cases k with
        | zero => simp
        | succ k2 =>
          simp only [List.getD_cons_succ, List.getD_cons_zero]
          exact hb k2 (by simpa using hk)
      · intro k _ _
        exact Nat.zero_le k
    · rw [hdef, hr]
      have hval : (v :: rest).getD (1 + j) 0 = rest.getD j 0 := by
        have h1j : 1 + j = j + 1 := by omega
        rw [h1j, List.getD_cons_succ]
      refine ⟨by simp only [List.length_cons]; omega, ?_, ?_⟩
      · intro k hk
        rw [hval]
        cases k with
        | zero => simpa using hgt.le
        | succ k2 =>
          simp only [List.getD_cons_succ]
          exact hball k2 (by simpa using hk)
      · intro k hk heq
        rw [hval] at heq
        cases k with
        | zero =>
          simp only [List.getD_cons_zero] at heq
          exact absurd heq (ne_of_lt hgt)
        | succ k2 =>
          simp only [List.getD_cons_succ] at heq
          by_contra hcon
          have hk2 : k2 < j := by omega
          exact absurd heq (ne_of_lt (hstrict k2 hk2))

/-- C2 (amended): for every ordered pair the ranker retains exactly one
entry, whose absolute correlation is maximal over the pair's profile;
a tie among lags is broken in favour of the smallest profile index,
i.e. the most negative lag — not the smallest absolute lag value, and
no series-name tie-break exists. -/
theorem C2_retained_lag (leadName lagName : String) (x y : List ℝ) (m : ℕ) :
    (mkRow leadName lagName x y m).absCorrelation =
      |(correlate x y m).getD (argmaxAbs (correlate x y m)) 0| ∧
    (mkRow leadName lagName x y m).lag =
      (argmaxAbs (correlate x y m) : ℤ) - (m : ℤ) ∧
    (∀ k < 2 * m + 1,
      |(correlate x y m).getD k 0| ≤ (mkRow leadName lagName x y m).absCorrelation) ∧
    (∀ k < 2 * m + 1,
      |(correlate x y m).getD k 0| = (mkRow leadName lagName x y m).absCorrelation →
        (mkRow leadName lagName x y m).lag ≤ (k : ℤ) - (m : ℤ)) := by
  have hne : correlate x y m ≠ [] := by
    have := correlate_length x y m
    intro hcon
    rw [hcon] at this
    simp at this
  obtain ⟨hlt, hmax, hfirst⟩ := argmaxAbs_spec (correlate x y m) hne
  rw [correlate_length x y m] at hlt hmax hfirst
  refine ⟨rfl, rfl, fun k hk => hmax k hk, fun k hk heq => ?_⟩
  have := hfirst k hk heq
  simp only [mkRow]
  omega

theorem sumSqDev_replicate_zero (n : ℕ) : sumSqDev (List.replicate n (0 : ℝ)) = 0 := by
  unfold sumSqDev listMean
  rw [List.sum_replicate]
  simp only [smul_zero, zero_div]
  refine Finset.sum_eq_zero (fun i _ => ?_)
  rw [getD_replicate_zero]
  ring

theorem correlate_zeros10 : correlate zeros10 zeros10 1 = [0, 0, 0] := by
  have hp : pearson (List.replicate 10 (0 : ℝ)) (List.replicate 10 (0 : ℝ)) = 0 :=
    pearson_degenerate _ _ (Or.inl (sumSqDev_replicate_zero 10))
  show List.map _ (List.range 3) = _
  rw [show List.range 3 = [0, 1, 2] from rfl]
  simp only [List.map_cons, List.map_nil, zeros10]
  norm_num [corrAtLag, sliceAt, List.take_replicate, hp]

theorem argmaxAbs_zeros : argmaxAbs ([0, 0, 0] : List ℝ) = 0 := by
  simp [argmaxAbs, argmaxAbsAux]

/-- C2 (counterexample): two constant length-10 series with `max_lag =
1` give the all-zero profile `[0, 0, 0]`; every lag ties at absolute
correlation 0, the code retains lag −1 (the first profile index) for
both ordered pairs, but the claimed tie-break demands the smallest
absolute lag, 0. -/
theorem C2_counterexample :
    ((calcCorrelations [("A", zeros10), ("B", zeros10)] 1).map Row.lag = [-1, -1]) ∧
    ¬ specRetainedLag (correlate zeros10 zeros10 1) 1 (-1) := by
  constructor
  · unfold calcCorrelations
    norm_num [List.enum, List.enumFrom, List.filterMap_cons, List.filterMap_nil,
      mkRow, correlate_zeros10, argmaxAbs_zeros]
  · intro hspec
    have h2 := hspec.2 1 (by rw [correlate_length]; norm_num)
    rw [correlate_zeros10] at h2
    have h3 := h2 (by norm_num)
    norm_num at h3

/-- C2 (witness): the amended retention theorem applied to the
counterexample pair. -/
theorem C2_witness :
    (1 < 2 * 1 + 1) ∧
    |(correlate zeros10 zeros10 1).getD 1 0| ≤
      (mkRow "A" "B" zeros10 zeros10 1).absCorrelation :=
  ⟨by norm_num, (C2_retained_lag "A" "B" zeros10 zeros10 1).2.2.1 1 (by norm_num)⟩

/-- C7 (amended): the scan path validates `top_n` nowhere: a
caller-supplied `top_n = 0` is silently replaced by the configured
default through Python `or`, and a negative `top_n` yields a successful
`ScanResult` whose top list is empty, never an error. -/
theorem C7_no_topn_validation (df : List (String × List ℝ)) (maxLagArg : Option ℕ)
    (defMaxLag : ℕ) (defTopN t : ℤ)
    (hne : (df.isEmpty || numRows df == 0) = false) (ht : t < 0) :
    scanIsOk (scanSignals df maxLagArg (some t) defMaxLag defTopN) = true ∧
    scanTop (scanSignals df maxLagArg (some t) defMaxLag defTopN) = [] ∧
    scanSignals df maxLagArg (some 0) defMaxLag defTopN =
      scanSignals df maxLagArg none defMaxLag defTopN := by
  have htop : orDefaultInt (some t) defTopN = t := by
    simp only [orDefaultInt]
    rw [if_neg (by omega)]
  refine ⟨?_, ?_, ?_⟩
  · unfold scanSignals
    rw [hne]
    rfl
  · unfold scanSignals
    rw [hne]
    show getTopCorrelations _ (orDefaultInt (some t) defTopN) = []
    rw [htop]
    unfold getTopCorrelations
    have hzero : t.toNat = 0 := Int.toNat_of_nonpos ht.le
    by_cases hrows : (calcCorrelations df (orDefaultNat maxLagArg defMaxLag)).isEmpty
    · rw [if_pos hrows]
    · rw [if_neg hrows, hzero]
      rfl
  · rfl

/-- C7 (counterexample): a scan over a nonempty two-column table with
`top_n = -1` produces a successful `ScanResult` (with an empty top
list) rather than failing with a ranking error. -/
theorem C7_counterexample :
    scanIsOk (scanSignals [("A", zeros10), ("B", zeros10)] (some 1) (some (-1)) 10 5) = true ∧
    scanTop (scanSignals [("A", zeros10), ("B", zeros10)] (some 1) (some (-1)) 10 5) = [] := by
  have hne : (([("A", zeros10), ("B", zeros10)] : List (String × List ℝ)).isEmpty ||
      numRows [("A", zeros10), ("B", zeros10)] == 0) = false := by
    rw [show numRows [("A", zeros10), ("B", zeros10)] = 10 from rfl]
    rfl
  have h := C7_no_topn_validation [("A", zeros10), ("B", zeros10)] (some 1) 10 5 (-1)
    hne (by norm_num)
  exact ⟨h.1, h.2.1⟩

/-- C7 (witness): the amended theorem applied at the counterexample's
concrete input. -/
theorem C7_witness :
    ((([("A", zeros10), ("B", zeros10)] : List (String × List ℝ)).isEmpty ||
        numRows [("A", zeros10), ("B", zeros10)] == 0) = false ∧ (-2 : ℤ) < 0) ∧
    scanIsOk (scanSignals [("A", zeros10), ("B", zeros10)] (some 2) (some (-2)) 10 5) = true :=
  ⟨⟨by rw [show numRows [("A", zeros10), ("B", zeros10)] = 10 from rfl]; rfl, by norm_num⟩,
    (C7_no_topn_validation [("A", zeros10), ("B", zeros10)] (some 2) 10 5 (-2)
      (by rw [show numRows [("A", zeros10), ("B", zeros10)] = 10 from rfl]; rfl)
      (by norm_num)).1⟩

/-- C9 (amended): `_align_dataframe` applies no minimum-overlap floor
and has no error value at all; the scan aborts only when the aligned
table is empty (no columns or no rows), and proceeds on any nonempty
aligned table however few overlapping dates remain. -/
theorem C9_no_overlap_floor (tbl : List (String × List (Option ℝ)))
    (maxLagArg : Option ℕ) (topNArg : Option ℤ) (defMaxLag : ℕ) (defTopN : ℤ) :
    scanIsOk (scanSignals (alignDataframe tbl) maxLagArg topNArg defMaxLag defTopN) =
      !((alignDataframe tbl).isEmpty || numRows (alignDataframe tbl) == 0) := by
  unfold scanSignals
  cases hb : ((alignDataframe tbl).isEmpty || numRows (alignDataframe tbl) == 0) with
  | true => rfl
  | false => rfl

/-- C9 (counterexample): a table whose intersection keeps only 3
overlapping dates — far below the claimed floor of 10 — aligns to a
3-row table and the scan proceeds to a successful result instead of
returning an alignment error. -/
theorem C9_counterexample :
    numRows (alignDataframe
      [("A", [none, some 1, some 2, some 3]), ("B", [some 5, some 6, some 7, none])]) = 3 ∧
    (3 < 10) ∧
    scanIsOk (scanSignals (alignDataframe
      [("A", [none, some 1, some 2, some 3]), ("B", [some 5, some 6, some 7, none])])
      (some 1) (some 5) 10 5) = true :=
  ⟨rfl, by norm_num, rfl⟩

theorem getD_eq_getElem (l : List ℝ) {i : ℕ} (h : i < l.length) : l.getD i 0 = l[i] := by
  rw [List.getD_eq_getElem?_getD, List.getElem?_eq_getElem h]
  rfl

theorem sampleStd_eq_zero_iff (l : List ℝ) (h : 2 ≤ l.length) :
    sampleStd l = 0 ↔ ∀ v ∈ l, v = listMean l := by
  have hden : (0 : ℝ) < (l.length : ℝ) - 1 := by
    have : (2 : ℝ) ≤ (l.length : ℝ) := by exact_mod_cast h
    linarith
  unfold sampleStd
  rw [Real.sqrt_eq_zero' ]
  constructor
  · intro hle v hv
    have hS : sumSqDev l / ((l.length : ℝ) - 1) = 0 :=
      le_antisymm hle (div_nonneg (sumSqDev_nonneg l) hden.le)
    have hS0 : sumSqDev l = 0 := by
      rcases div_eq_zero_iff.mp hS with h0 | h0
      · exact h0
      · exact absurd h0 (by linarith)
    have hall := (Finset.sum_eq_zero_iff_of_nonneg
      (fun i _ => sq_nonneg (l.getD i 0 - listMean l))).mp hS0
    obtain ⟨i, hi, hv2⟩ := List.mem_iff_getElem.mp hv
    have := hall i (Finset.mem_range.mpr hi)
    have hzero : l.getD i 0 - listMean l = 0 := by
      exact pow_eq_zero_iff (n := 2) (by norm_num) |>.mp this
    rw [getD_eq_getElem l hi, hv2] at hzero
    linarith
  · intro hall
    have hS0 : sumSqDev l = 0 := by
      unfold sumSqDev
      refine Finset.sum_eq_zero (fun i hi => ?_)
      have hi2 := Finset.mem_range.mp hi
      have hv : l.getD i 0 ∈ l := by
        rw [getD_eq_getElem l hi2]
        exact List.getElem_mem hi2
      rw [hall _ hv]
      ring
    rw [hS0, zero_div]

/-- C8: each selected entry's significance z-score equals
(correlation − mean of all per-pair best correlations) divided by the
sample standard deviation of that population; when that standard
deviation is zero — exactly when every best correlation equals the
population mean — every z-score is 0.  (Stated for populations of at
least two entries; a pair-producing scan always yields an even number
≥ 2 of ordered pairs.) -/
theorem C8_significance_zscores (allCorr selected : List ℝ) (h : 2 ≤ allCorr.length) :
    (sampleStd allCorr = 0 →
      calcZScores allCorr selected = selected.map (fun _ => some 0)) ∧
    (sampleStd allCorr ≠ 0 →
      calcZScores allCorr selected =
        selected.map (fun x => some ((x - listMean allCorr) / sampleStd allCorr))) ∧
    (sampleStd allCorr = 0 ↔ ∀ v ∈ allCorr, v = listMean allCorr) := by
  have hstd : stdPandas allCorr = some (sampleStd allCorr) := by
    unfold stdPandas
    rw [if_neg (by omega)]
  refine ⟨fun h0 => ?_, fun h0 => ?_, sampleStd_eq_zero_iff allCorr h⟩
  · unfold calcZScores
    rw [hstd]
    simp only [if_pos h0]
  · unfold calcZScores
    rw [hstd]
    simp only [if_neg h0]

/-- C8 (witness): the z-score theorem applied to the concrete
population `[0, 4]` with selection `[4]`. -/
theorem C8_witness :
    (2 ≤ ([(0 : ℝ), 4]).length) ∧
    (sampleStd [(0 : ℝ), 4] ≠ 0 →
      calcZScores [(0 : ℝ), 4] [4] =
        [4].map (fun x => some ((x - listMean [(0 : ℝ), 4]) / sampleStd [(0 : ℝ), 4]))) :=
  ⟨by norm_num, (C8_significance_zscores [(0 : ℝ), 4] [4] (by norm_num)).2.1⟩

theorem calcZScores_length (allCorr selected : List ℝ) :
    (calcZScores allCorr selected).length = selected.length := by
  unfold calcZScores
  cases stdPandas allCorr with
  | none => simp
  | some s =>
    by_cases h0 : s = 0
    · simp [h0]
    · simp [h0]

theorem sortRowsIdx_perm (rows : List Row) : List.Perm (sortRowsIdx rows) rows.enum :=
  List.perm_insertionSort topRel rows.enum

theorem sortRowsIdx_length (rows : List Row) : (sortRowsIdx rows).length = rows.length := by
  rw [(sortRowsIdx_perm rows).length_eq, List.enum_length]

theorem sortRowsIdx_sorted (rows : List Row) : List.Sorted topRel (sortRowsIdx rows) :=
  List.sorted_insertionSort topRel rows.enum

theorem sortRowsIdx_stable (rows : List Row) :
    List.Pairwise (fun a b : ℕ × Row =>
      a.2.absCorrelation = b.2.absCorrelation → a.1 < b.1) (sortRowsIdx rows) := by
  have hnodup : ((sortRowsIdx rows).map Prod.fst).Nodup := by
    have hperm : List.Perm ((sortRowsIdx rows).map Prod.fst) (rows.enum.map Prod.fst) :=
      (sortRowsIdx_perm rows).map Prod.fst
    rw [hperm.nodup_iff, List.enum_map_fst]
    exact List.nodup_range _
  have hne : List.Pairwise (fun a b : ℕ × Row => a.1 ≠ b.1) (sortRowsIdx rows) :=
    (List.pairwise_map).mp hnodup
  have hcomb := (sortRowsIdx_sorted rows).and hne
  refine hcomb.imp ?_
  rintro a b ⟨hrel, hne2⟩ heq
  rcases hrel with hlt | ⟨_, hle⟩
  · exact absurd heq.symm (ne_of_lt hlt)
  · exact lt_of_le_of_ne hle hne2

theorem sortValuesDescIdx_perm (rows : List Row) :
    List.Perm (sortValuesDescIdx rows) rows.enum :=
  (List.reverse_perm _).trans (List.perm_insertionSort ascRel rows.enum)

theorem sortValuesDescIdx_sorted (rows : List Row) :
    List.Sorted (fun a b : ℕ × Row => b.2.absCorrelation ≤ a.2.absCorrelation)
      (sortValuesDescIdx rows) := by
  unfold sortValuesDescIdx
  refine (List.pairwise_reverse).mpr ?_
  refine (List.sorted_insertionSort ascRel rows.enum).imp ?_
  intro a b hab
  rcases hab with h | ⟨h, _⟩
  · exact h.le
  · exact h.le

theorem nlargestIdx_perm (rows : List Row) (nn : ℕ) :
    List.Perm (nlargestIdx rows nn) rows.enum := by
  unfold nlargestIdx
  by_cases h : rows.length ≤ nn
  · rw [if_pos h]
    exact sortValuesDescIdx_perm rows
  · rw [if_neg h]
    exact sortRowsIdx_perm rows

theorem nlargestIdx_length (rows : List Row) (nn : ℕ) :
    (nlargestIdx rows nn).length = rows.length := by
  rw [(nlargestIdx_perm rows nn).length_eq, List.enum_length]

theorem nlargestIdx_sorted (rows : List Row) (nn : ℕ) :
    List.Sorted (fun a b : ℕ × Row => b.2.absCorrelation ≤ a.2.absCorrelation)
      (nlargestIdx rows nn) := by
  unfold nlargestIdx
  by_cases h : rows.length ≤ nn
  · rw [if_pos h]
    exact sortValuesDescIdx_sorted rows
  · rw [if_neg h]
    refine (sortRowsIdx_sorted rows).imp ?_
    intro a b hab
    rcases hab with h2 | ⟨h2, _⟩
    · exact h2.le
    · exact h2.ge

theorem nlargestIdx_perm_rows (rows : List Row) (nn : ℕ) :
    List.Perm ((nlargestIdx rows nn).map Prod.snd) rows := by
  have h := (nlargestIdx_perm rows nn).map Prod.snd
  rwa [List.enum_map_snd] at h

/-- C6 (amended): `_get_top_correlations` retains `min(top_n,
len(all))` rows in descending order of absolute correlation for every
positive `top_n`; tied rows keep their original pair-enumeration order
only on the `nlargest` fast path `top_n < len(all)`, whose mergesort
selection is stable — when `top_n ≥ len(all)` pandas instead returns
`sort_values(ascending=False).head(top_n)`, which does not preserve the
original order of ties. -/
theorem C6_top_selection (rows : List Row) (topN : ℤ) (_h : 0 < topN) :
    (getTopCorrelations rows topN).length = min topN.toNat rows.length ∧
    List.Sorted (fun a b : Row => b.absCorrelation ≤ a.absCorrelation)
      ((getTopCorrelations rows topN).map Prod.fst) ∧
    (topN.toNat < rows.length →
      (getTopCorrelations rows topN).map Prod.fst =
        ((sortRowsIdx rows).map Prod.snd).take topN.toNat ∧
      List.Pairwise (fun a b : ℕ × Row =>
        a.2.absCorrelation = b.2.absCorrelation → a.1 < b.1) (sortRowsIdx rows)) ∧
    List.Sorted topRel (sortRowsIdx rows) ∧
    List.Perm ((nlargestIdx rows topN.toNat).map Prod.snd) rows := by
  have hperm2 : List.Perm ((nlargestIdx rows topN.toNat).map Prod.snd) rows :=
    nlargestIdx_perm_rows rows topN.toNat
  have hsortsnd : List.Sorted (fun a b : Row => b.absCorrelation ≤ a.absCorrelation)
      ((nlargestIdx rows topN.toNat).map Prod.snd) :=
    (List.pairwise_map).mpr (nlargestIdx_sorted rows topN.toNat)
  have htake : List.Sorted (fun a b : Row => b.absCorrelation ≤ a.absCorrelation)
      (((nlargestIdx rows topN.toNat).map Prod.snd).take topN.toNat) :=
    hsortsnd.sublist (List.take_sublist _ _)
  by_cases hrows : rows.isEmpty
  · have hnil : rows = [] := List.isEmpty_iff.mp hrows
    subst hnil
    refine ⟨?_, ?_, ?_, sortRowsIdx_sorted [], hperm2⟩
    · simp [getTopCorrelations]
    · simp [getTopCorrelations]
    · intro hcon
      exact absurd hcon (by simp)
  · have hcond : ¬ (rows.isEmpty = true) := hrows
    have hlen_top : (((nlargestIdx rows topN.toNat).map Prod.snd).take topN.toNat).length
        = min topN.toNat rows.length := by
      rw [List.length_take, List.length_map, nlargestIdx_length]
    have hlen_zs : (calcZScores (rows.map Row.correlation)
        ((((nlargestIdx rows topN.toNat).map Prod.snd).take topN.toNat).map
          Row.correlation)).length
        = (((nlargestIdx rows topN.toNat).map Prod.snd).take topN.toNat).length := by
      rw [calcZScores_length, List.length_map]
    have hmapfst : (getTopCorrelations rows topN).map Prod.fst =
        ((nlargestIdx rows topN.toNat).map Prod.snd).take topN.toNat := by
      unfold getTopCorrelations
      rw [if_neg hcond]
      exact List.map_fst_zip _ _ (le_of_eq hlen_zs.symm)
    refine ⟨?_, ?_, ?_, sortRowsIdx_sorted rows, hperm2⟩
    · unfold getTopCorrelations
      rw [if_neg hcond, List.length_zip, hlen_zs, min_self, hlen_top]
    · rw [hmapfst]
      exact htake
    · intro hlt
      have hfast : nlargestIdx rows topN.toNat = sortRowsIdx rows := by
        unfold nlargestIdx
        rw [if_neg (by omega)]
      rw [hmapfst, hfast]
      exact ⟨rfl, sortRowsIdx_stable rows⟩

/-- C6 (counterexample): two rows tied at absolute correlation 1 with
`top_n = 2 ≥ len(all) = 2` take the slow `sort_values` path, which
returns the tied rows in reversed enumeration order `[rowBA, rowAB]` —
not the original order `[rowAB, rowBA]` the claim requires for every
positive `top_n`. -/
theorem C6_counterexample :
    ((0 : ℤ) < 2) ∧
    rowAB.absCorrelation = rowBA.absCorrelation ∧
    (getTopCorrelations [rowAB, rowBA] 2).map Prod.fst = [rowBA, rowAB] ∧
    rowAB ≠ rowBA := by
  refine ⟨by norm_num, rfl, ?_, ?_⟩
  · have hins : List.insertionSort ascRel ([rowAB, rowBA].enum) = [(0, rowAB), (1, rowBA)] := by
      rw [show ([rowAB, rowBA].enum) = [(0, rowAB), (1, rowBA)] from rfl]
      show List.orderedInsert ascRel (0, rowAB)
        (List.orderedInsert ascRel (1, rowBA) []) = _
      rw [show List.orderedInsert ascRel (1, rowBA) [] = [(1, rowBA)] from rfl,
        List.orderedInsert,
        if_pos (show ascRel (0, rowAB) (1, rowBA) from Or.inr ⟨rfl, by norm_num⟩)]
    have hnl : nlargestIdx [rowAB, rowBA] (2 : ℤ).toNat = [(1, rowBA), (0, rowAB)] := by
      unfold nlargestIdx
      rw [if_pos (by norm_num), sortValuesDescIdx, hins]
      rfl
    unfold getTopCorrelations
    rw [if_neg (by decide), hnl]
    rw [show (([(1, rowBA), (0, rowAB)] : List (ℕ × Row)).map Prod.snd).take (2 : ℤ).toNat
      = [rowBA, rowAB] from rfl]
    rw [List.map_fst_zip]
    rw [calcZScores_length, List.length_map]
  · intro hcon
    have hlead := congrArg Row.leadSeries hcon
    simp [rowAB, rowBA] at hlead

/-- C6 (witness): the amended top-selection theorem applied to a
concrete one-row population with `top_n = 2`. -/
theorem C6_witness :
    ((0 : ℤ) < 2) ∧
    (getTopCorrelations [rowAB] 2).length = min (2 : ℤ).toNat [rowAB].length :=
  ⟨by norm_num, (C6_top_selection [rowAB] 2 (by norm_num)).1⟩

theorem mem_insDate (x a : ℕ) (l : List ℕ) : a ∈ insDate x l ↔ a = x ∨ a ∈ l := by
  induction l with
  | nil => simp [insDate]
  | cons y ys ih =>
    unfold insDate
    by_cases h1 : x < y
    · rw [if_pos h1]
      simp
    · rw [if_neg h1]
      by_cases h2 : x = y
      · rw [if_pos h2]
        subst h2
        constructor
        · intro h3
          exact Or.inr h3
        · rintro (h3 | h3)
          · rw [h3]
            exact List.mem_cons_self x ys
          · exact h3
      · rw [if_neg h2]
        simp only [List.mem_cons, ih]
        tauto

theorem mem_foldr_insDate (l : List ℕ) (t : ℕ) (h : t ∈ l) : t ∈ l.foldr insDate [] := by
  induction l with
  | nil => simp at h
  | cons y ys ih =>
    simp only [List.foldr_cons]
    rw [mem_insDate]
    rcases List.mem_cons.mp h with h2 | h2
    · exact Or.inl h2
    · exact Or.inr (ih h2)

theorem mem_unionDates (good : List (String × List (ℕ × ℝ))) (t : ℕ)
    (h : t ∈ good.flatMap (fun g => g.2.map Prod.fst)) : t ∈ unionDates good :=
  mem_foldr_insDate _ t h

theorem alignDataframe_names (tbl : List (String × List (Option ℝ))) :
    (alignDataframe tbl).map Prod.fst = (dropAllNoneCols tbl).map Prod.fst := by
  unfold alignDataframe
  rw [List.map_map, List.map_map]
  rfl

theorem concatTable_kept (good : List (String × List (ℕ × ℝ)))
    (hne : ∀ c ∈ good, c.2 ≠ []) :
    dropAllNoneCols (concatTable good) = concatTable good := by
  unfold dropAllNoneCols
  rw [List.filter_eq_self]
  intro col hcol
  obtain ⟨g, hg, hcol2⟩ := List.mem_map.mp hcol
  obtain ⟨t0, v, rest, hd⟩ : ∃ t0 v rest, g.2 = (t0, v) :: rest := by
    rcases hgd : g.2 with _ | ⟨⟨t0, v⟩, rest⟩
    · exact absurd hgd (hne g hg)
    · exact ⟨t0, v, rest, rfl⟩
  have htin : t0 ∈ unionDates good := by
    refine mem_unionDates good t0 (List.mem_flatMap.mpr ⟨g, hg, ?_⟩)
    rw [hd]
    exact List.mem_cons_self _ _
  have hlook : g.2.lookup t0 = some v := by
    rw [hd]
    simp [List.lookup]
  have hmem : some v ∈ col.2 := by
    rw [← hcol2]
    simp only []
    rw [← hlook]
    exact List.mem_map_of_mem _ htin
  rw [List.any_eq_true]
  exact ⟨some v, hmem, rfl⟩

theorem good_mem_nonempty (cfgs : List (String × FetchOutcome))
    {c : String × List (ℕ × ℝ)}
    (h : c ∈ cfgs.filterMap (fun c =>
      if (fetchSingleSeries c.2).isEmpty then none else some (c.1, fetchSingleSeries c.2))) :
    c.2 ≠ [] := by
  obtain ⟨a, _, ha⟩ := List.mem_filterMap.mp h
  by_cases he : (fetchSingleSeries a.2).isEmpty
  · rw [if_pos he] at ha
    exact absurd ha (by simp)
  · rw [if_neg he] at ha
    have h2 : c.2 = fetchSingleSeries a.2 := by
      rw [← Option.some.inj ha]
    rw [h2]
    intro hnil
    rw [hnil] at he
    exact he rfl

theorem good_names (cfgs : List (String × FetchOutcome)) :
    (cfgs.filterMap (fun c =>
      if (fetchSingleSeries c.2).isEmpty then none
      else some (c.1, fetchSingleSeries c.2))).map Prod.fst =
    (cfgs.filter (fun c => !(fetchSingleSeries c.2).isEmpty)).map Prod.fst := by
  induction cfgs with
  | nil => rfl
  | cons c rest ih =>
    cases hbool : (fetchSingleSeries c.2).isEmpty with
    | true =>
      have hnil : fetchSingleSeries c.2 = [] := List.isEmpty_iff.mp hbool
      simp only [List.isEmpty_iff] at ih
      simp [List.filterMap_cons, List.filter_cons, hbool, hnil, ih]
    | false =>
      have hnil : ¬ (fetchSingleSeries c.2 = []) := by
        intro hx
        rw [hx] at hbool
        exact absurd hbool (by decide)
      simp only [List.isEmpty_iff] at ih
      simp [List.filterMap_cons, List.filter_cons, hbool, hnil, ih]

/-- C10: every per-series fetch failure (unregistered source, raising
fetcher, or empty result) produces the empty series, and the combined
fetch simply omits those series, returning a table whose columns are
exactly the configured series that fetched nonempty data (the empty
table when none did); no fetch failure escapes `fetch_all_series`. -/
theorem C10_fetch_failures_absorbed (cfgs : List (String × FetchOutcome))
    (h : (cfgs.map Prod.fst).Nodup) :
    (fetchAllSeries cfgs).map Prod.fst =
      (cfgs.filter (fun c => !(fetchSingleSeries c.2).isEmpty)).map Prod.fst ∧
    ∀ c ∈ cfgs, fetchSingleSeries c.2 = [] →
      c.1 ∉ (fetchAllSeries cfgs).map Prod.fst := by
  have hmain : (fetchAllSeries cfgs).map Prod.fst =
      (cfgs.filter (fun c => !(fetchSingleSeries c.2).isEmpty)).map Prod.fst := by
    unfold fetchAllSeries
    by_cases hgood : (cfgs.filterMap (fun c =>
        if (fetchSingleSeries c.2).isEmpty then none
        else some (c.1, fetchSingleSeries c.2))).isEmpty
    · rw [if_pos hgood]
      rw [List.isEmpty_iff] at hgood
      rw [← good_names cfgs, hgood]
      rfl
    · rw [if_neg hgood, alignDataframe_names,
        concatTable_kept _ (fun c hc => good_mem_nonempty cfgs hc)]
      unfold concatTable
      rw [List.map_map]
      rw [show (Prod.fst ∘ fun g : String × List (ℕ × ℝ) =>
        (g.1, (unionDates _).map (fun d => g.2.lookup d))) = Prod.fst from rfl]
      exact good_names cfgs
  refine ⟨hmain, fun c hc hfail hin => ?_⟩
  rw [hmain] at hin
  obtain ⟨c2, hc2, hc2eq⟩ := List.mem_map.mp hin
  have hc2mem := List.mem_of_mem_filter hc2
  have hkept := List.of_mem_filter hc2
  have hceq : c2 = c := List.inj_on_of_nodup_map h hc2mem hc hc2eq
  rw [hceq, hfail] at hkept
  simp at hkept

/-- C10 (witness): the absorption theorem applied to a concrete
configuration with one successful series and one unregistered source. -/
theorem C10_witness :
    (cfgsW.map Prod.fst).Nodup ∧
    (fetchAllSeries cfgsW).map Prod.fst =
      (cfgsW.filter (fun c => !(fetchSingleSeries c.2).isEmpty)).map Prod.fst :=
  ⟨by decide, (C10_fetch_failures_absorbed cfgsW (by decide)).1⟩

theorem getD_range_map {β : Type} (f : ℕ → β) (n t : ℕ) (h : t < n) (d : β) :
    ((List.range n).map f).getD t d = f t := by
  rw [List.getD_eq_getElem?_getD, List.getElem?_map, List.getElem?_range h]
  rfl

theorem map_eq_range_getD {β : Type} (l : List ℝ) (f : ℝ → β) :
    l.map f = (List.range l.length).map (fun i => f (l.getD i 0)) := by
  refine List.ext_getElem (by simp) (fun i h1 h2 => ?_)
  rw [List.getElem_map, List.getElem_map, List.getElem_range,
    getD_eq_getElem _ (by simpa using h1)]

theorem contribution_eq (zs : List (String × List ℝ)) (r : Row) (zl zg : List ℝ)
    (hl : zs.lookup r.leadSeries = some zl) (hg : zs.lookup r.lagSeries = some zg) :
    contribution zs r = some
      ((List.range (if r.lag < 0 then zl else zg).length).map (fun (t : ℕ) =>
        if (t : ℤ) + r.lag < 0 ∨
            (((if r.lag < 0 then zl else zg).length : ℤ) ≤ (t : ℤ) + r.lag) then none
        else some ((if r.lag < 0 then zl else zg).getD ((t : ℤ) + r.lag).toNat 0 *
          r.correlation)),
      |r.correlation|) := by
  unfold contribution
  rw [hl, hg]
  simp only []
  refine congrArg some (Prod.ext ?_ rfl)
  by_cases hlag : r.lag = 0
  · rw [if_neg (by simp [hlag]), List.map_map]
    rw [show (Option.map (fun v => v * r.correlation) ∘ some) =
      (fun v : ℝ => some (v * r.correlation)) from rfl]
    rw [map_eq_range_getD]
    refine List.map_congr_left (fun t ht => ?_)
    have htl : t < (if r.lag < 0 then zl else zg).length := List.mem_range.mp ht
    rw [hlag] at htl ⊢
    simp only [lt_self_iff_false, if_false] at htl ⊢
    rw [if_neg (by omega)]
    simp
  · rw [if_pos hlag]
    unfold shiftBy
    rw [List.map_map]
    refine List.map_congr_left ?_
    intro t _
    simp only [Function.comp]
    by_cases hcond : (t : ℤ) + r.lag < 0 ∨
        (((if r.lag < 0 then zl else zg).length : ℤ) ≤ (t : ℤ) + r.lag)
    · rw [if_pos hcond, if_pos hcond]
      rfl
    · rw [if_neg hcond, if_neg hcond]
      rfl

theorem zscoreColumn_zero_variance (data : List ℝ) (hvar : sumSqDev data = 0) :
    zscoreColumn data = data.map (fun _ => 0) := by
  unfold zscoreColumn stdPandas
  by_cases hlen : data.length ≤ 1
  · rw [if_pos hlen]
  · rw [if_neg hlen]
    have hs : sampleStd data = 0 := by
      unfold sampleStd
      rw [hvar, zero_div, Real.sqrt_zero]
    simp [hs]

/-- C4 (amended): the composite builder selects the lead z-column only
for negative lags and otherwise the lag-series z-column; the selected
z-score series is read at position `t + lag`, i.e. for a positive lag
the follower's future value is moved backward, not the historical
leading value forward; a zero-variance column z-scores to the all-zero
series rather than failing. -/
theorem C4_selection_and_shift (zs : List (String × List ℝ)) (r : Row) (zl zg : List ℝ)
    (hl : zs.lookup r.leadSeries = some zl) (hg : zs.lookup r.lagSeries = some zg) :
    contribution zs r = some
      ((List.range (if r.lag < 0 then zl else zg).length).map (fun (t : ℕ) =>
        if (t : ℤ) + r.lag < 0 ∨
            (((if r.lag < 0 then zl else zg).length : ℤ) ≤ (t : ℤ) + r.lag) then none
        else some ((if r.lag < 0 then zl else zg).getD ((t : ℤ) + r.lag).toNat 0 *
          r.correlation)),
      |r.correlation|) ∧
    (∀ data : List ℝ, sumSqDev data = 0 → zscoreColumn data = data.map (fun _ => 0)) :=
  ⟨contribution_eq zs r zl zg hl hg, zscoreColumn_zero_variance⟩

theorem listMean_012 : listMean [(0 : ℝ), 1, 2] = 1 := by
  norm_num [listMean]

theorem sumSqDev_012 : sumSqDev [(0 : ℝ), 1, 2] = 2 := by
  unfold sumSqDev
  rw [listMean_012]
  show ∑ i ∈ Finset.range 3, _ = 2
  rw [Finset.sum_range_succ, Finset.sum_range_succ, Finset.sum_range_one]
  norm_num

theorem sampleStd_012 : sampleStd [(0 : ℝ), 1, 2] = 1 := by
  unfold sampleStd
  rw [sumSqDev_012]
  norm_num

theorem zscoreColumn_012 : zscoreColumn [(0 : ℝ), 1, 2] = [-1, 0, 1] := by
  unfold zscoreColumn stdPandas
  rw [listMean_012, if_neg (by norm_num), sampleStd_012]
  norm_num

theorem listMean_210 : listMean [(2 : ℝ), 1, 0] = 1 := by
  norm_num [listMean]

theorem sumSqDev_210 : sumSqDev [(2 : ℝ), 1, 0] = 2 := by
  unfold sumSqDev
  rw [listMean_210]
  show ∑ i ∈ Finset.range 3, _ = 2
  rw [Finset.sum_range_succ, Finset.sum_range_succ, Finset.sum_range_one]
  norm_num

theorem sampleStd_210 : sampleStd [(2 : ℝ), 1, 0] = 1 := by
  unfold sampleStd
  rw [sumSqDev_210]
  norm_num

theorem zscoreColumn_210 : zscoreColumn [(2 : ℝ), 1, 0] = [1, 0, -1] := by
  unfold zscoreColumn stdPandas
  rw [listMean_210, if_neg (by norm_num), sampleStd_210]
  norm_num

theorem buildZScores_dfC4 :
    buildZScores dfC4 = [("A", [-1, 0, 1]), ("B", [1, 0, -1])] := by
  unfold buildZScores dfC4
  rw [List.filterMap_cons, List.filterMap_cons, List.filterMap_nil]
  norm_num [zscoreColumn_012, zscoreColumn_210]

/-- C4 (counterexample): for the relationship (lead A, lag series B,
lag 1, correlation 1) over the table with z-columns A = [-1, 0, 1] and
B = [1, 0, -1], the builder contributes the lag-series B shifted
backward, `[0, -1, missing]`, while the claim demands the lead series A
moved forward, `[missing, -1, 0]`. -/
theorem C4_counterexample :
    contribution (buildZScores dfC4) rC4 = some ([some 0, some (-1), none], 1) ∧
    specSelectShift dfC4 rC4 = some [none, some (-1), some 0] ∧
    ([some (0 : ℝ), some (-1), none] ≠ [none, some (-1), some 0]) := by
  refine ⟨?_, ?_, by simp⟩
  · have hl : (buildZScores dfC4).lookup rC4.leadSeries = some [-1, 0, 1] := by
      rw [buildZScores_dfC4]
      rfl
    have hg : (buildZScores dfC4).lookup rC4.lagSeries = some [1, 0, -1] := by
      rw [buildZScores_dfC4]
      rfl
    rw [contribution_eq _ _ _ _ hl hg]
    norm_num [rC4, List.range_succ]
  · have hl : (buildZScores dfC4).lookup rC4.leadSeries = some [-1, 0, 1] := by
      rw [buildZScores_dfC4]
      rfl
    unfold specSelectShift
    rw [hl]
    norm_num [rC4, List.range_succ]

/-- C4 (witness): the amended selection theorem applied to the
concrete z-score dictionary `zsW` and relationship `rowAB`. -/
theorem C4_witness :
    (zsW.lookup rowAB.leadSeries = some [1, 2] ∧
      zsW.lookup rowAB.lagSeries = some [3, 4]) ∧
    contribution zsW rowAB = some
      ((List.range (if rowAB.lag < 0 then [(1 : ℝ), 2] else [3, 4]).length).map
        (fun (t : ℕ) =>
          if (t : ℤ) + rowAB.lag < 0 ∨
              (((if rowAB.lag < 0 then [(1 : ℝ), 2] else [3, 4]).length : ℤ) ≤
                (t : ℤ) + rowAB.lag) then none
          else some ((if rowAB.lag < 0 then [(1 : ℝ), 2] else [3, 4]).getD
            ((t : ℤ) + rowAB.lag).toNat 0 * rowAB.correlation)),
      |rowAB.correlation|) :=
  ⟨⟨rfl, rfl⟩, (C4_selection_and_shift zsW rowAB [1, 2] [3, 4] rfl rfl).1⟩

theorem zscoreColumn_length (data : List ℝ) : (zscoreColumn data).length = data.length := by
  unfold zscoreColumn
  cases stdPandas data with
  | none => simp
  | some s =>
    by_cases h0 : 0 < s
    · simp [h0]
    · simp [h0]

theorem lookup_mem {l : List (String × List ℝ)} {a : String} {b : List ℝ}
    (h : l.lookup a = some b) : (a, b) ∈ l := by
  induction l with
  | nil => simp [List.lookup] at h
  | cons c rest ih =>
    obtain ⟨k, v⟩ := c
    cases hbeq : a == k with
    | true =>
      simp only [List.lookup, hbeq] at h
      have hk : a = k := eq_of_beq hbeq
      have hv : v = b := Option.some.inj h
      rw [hk, hv]
      exact List.mem_cons_self _ _
    | false =>
      simp only [List.lookup, hbeq] at h
      exact List.mem_cons_of_mem _ (ih h)

theorem buildZScores_lookup_length (df : List (String × List ℝ)) (name : String)
    (z : List ℝ) (h : (buildZScores df).lookup name = some z) :
    ∃ c ∈ df, z.length = c.2.length := by
  have hmem := lookup_mem h
  obtain ⟨c, hc, heq⟩ := List.mem_filterMap.mp hmem
  by_cases hlen : 0 < c.2.length
  · rw [if_pos hlen] at heq
    refine ⟨c, hc, ?_⟩
    have hz : zscoreColumn c.2 = z := congrArg Prod.snd (Option.some.inj heq)
    rw [← hz, zscoreColumn_length]
  · rw [if_neg hlen] at heq
    exact absurd heq (by simp)

theorem hasBoth_true {zs : List (String × List ℝ)} {r : Row}
    (h : hasBoth zs r = true) :
    ∃ zl zg, zs.lookup r.leadSeries = some zl ∧ zs.lookup r.lagSeries = some zg := by
  unfold hasBoth at h
  rw [Bool.and_eq_true] at h
  obtain ⟨zl, hl⟩ := Option.isSome_iff_exists.mp h.1
  obtain ⟨zg, hg⟩ := Option.isSome_iff_exists.mp h.2
  exact ⟨zl, zg, hl, hg⟩

theorem contribution_none {zs : List (String × List ℝ)} {r : Row}
    (h : hasBoth zs r = false) : contribution zs r = none := by
  unfold hasBoth at h
  unfold contribution
  cases hl : zs.lookup r.leadSeries with
  | none => rfl
  | some zl =>
    cases hg : zs.lookup r.lagSeries with
    | none => rfl
    | some zg =>
      rw [hl, hg] at h
      simp at h

theorem amendedTerm_none {zs : List (String × List ℝ)} {r : Row}
    (h : hasBoth zs r = false) (t : ℕ) : amendedTerm zs r t = 0 := by
  unfold hasBoth at h
  unfold amendedTerm
  cases hl : zs.lookup r.leadSeries with
  | none => rfl
  | some zl =>
    cases hg : zs.lookup r.lagSeries with
    | none => rfl
    | some zg =>
      rw [hl, hg] at h
      simp at h

theorem weights_sum (zs : List (String × List ℝ)) (top : List Row) :
    ((top.filterMap (contribution zs)).map Prod.snd).sum = amendedWeight zs top := by
  induction top with
  | nil => rfl
  | cons r rest ih =>
    unfold amendedWeight at ih ⊢
    cases hb : hasBoth zs r with
    | false =>
      simp only [List.filterMap_cons, contribution_none hb, List.filter_cons, hb]
      simpa using ih
    | true =>
      obtain ⟨zl, zg, hl, hg⟩ := hasBoth_true hb
      simp only [List.filterMap_cons, contribution_eq zs r zl zg hl hg,
        List.filter_cons, hb]
      simp only [List.map_cons, List.sum_cons, if_true]
      rw [ih]

theorem term_sum (zs : List (String × List ℝ)) (n t : ℕ) (ht : t < n) (top : List Row)
    (hlen : ∀ r ∈ top, ∀ zl zg, zs.lookup r.leadSeries = some zl →
      zs.lookup r.lagSeries = some zg → (if r.lag < 0 then zl else zg).length = n) :
    ((top.filterMap (contribution zs)).map
      (fun p => match p.1.getD t none with
        | some v => v * p.2
        | none => 0)).sum =
    (top.map (fun r => amendedTerm zs r t)).sum := by
  induction top with
  | nil => rfl
  | cons r rest ih =>
    have ih2 := ih (fun r2 h2 => hlen r2 (List.mem_cons_of_mem _ h2))
    cases hb : hasBoth zs r with
    | false =>
      simp only [List.filterMap_cons, contribution_none hb, List.map_cons, List.sum_cons,
        amendedTerm_none hb t]
      rw [ih2, zero_add]
    | true =>
      obtain ⟨zl, zg, hl, hg⟩ := hasBoth_true hb
      have hL : (if r.lag < 0 then zl else zg).length = n :=
        hlen r (List.mem_cons_self _ _) zl zg hl hg
      simp only [List.filterMap_cons, contribution_eq zs r zl zg hl hg, List.map_cons,
        List.sum_cons]
      rw [ih2]
      congr 1
      rw [hL, getD_range_map _ n t ht]
      unfold amendedTerm
      rw [hl, hg]
      simp only []
      rw [hL]
      by_cases hcond : (t : ℤ) + r.lag < 0 ∨ ((n : ℤ) ≤ (t : ℤ) + r.lag)
      · rw [if_pos hcond, if_pos hcond]
      · rw [if_neg hcond, if_neg hcond]
        ring

theorem range_map_const (n : ℕ) (c : ℝ) :
    (List.range n).map (fun _ => c) = List.replicate n c := by
  rw [List.map_const', List.length_range]

theorem range_map_const_none (n : ℕ) :
    (List.range n).map (fun _ => (none : Option ℝ)) = List.replicate n none := by
  rw [List.map_const', List.length_range]

theorem renormalize_replicate_zero (n : ℕ) :
    renormalize (List.replicate n (0 : ℝ)) = List.replicate n none := by
  unfold renormalize stdPandas
  by_cases hn : n ≤ 1
  · rw [if_pos (by simp [hn])]
    rw [List.map_const', List.length_replicate]
  · rw [if_neg (by simp [hn])]
    have hs : sampleStd (List.replicate n (0 : ℝ)) = 0 := by
      unfold sampleStd
      rw [sumSqDev_replicate_zero, zero_div, Real.sqrt_zero]
    rw [hs]
    simp [List.map_const']

/-- C1 (amended): over an aligned table, the built composite equals the
re-normalization of the pointwise series whose value at date `t` is
`Σ(|c_i| · (c_i · shifted_zscore_i[t])) / Σ(|c_i|)` — each shifted
z-score enters multiplied by its signed correlation and weighted by its
absolute correlation, missing contributors are dropped from the sum but
the denominator is always the full weight total, and the final
re-normalization maps a zero-or-undefined standard deviation to an
all-missing series rather than leaving the series unscaled. -/
theorem C1_composite_weighting (df : List (String × List ℝ)) (top : List Row)
    (halign : ∀ c ∈ df, c.2.length = numRows df)
    (hsome : ∃ r ∈ top, hasBoth (buildZScores df) r = true) :
    buildCompositeSignal df top = renormalize (amendedRaw df top) := by
  obtain ⟨r0, hr0, hb0⟩ := hsome
  have hcols : ∀ r ∈ top, ∀ zl zg, (buildZScores df).lookup r.leadSeries = some zl →
      (buildZScores df).lookup r.lagSeries = some zg →
      (if r.lag < 0 then zl else zg).length = numRows df := by
    intro r _ zl zg hl hg
    by_cases hlag : r.lag < 0
    · obtain ⟨c, hc, hlen⟩ := buildZScores_lookup_length df r.leadSeries zl hl
      rw [if_pos hlag, hlen]
      exact halign c hc
    · obtain ⟨c, hc, hlen⟩ := buildZScores_lookup_length df r.lagSeries zg hg
      rw [if_neg hlag, hlen]
      exact halign c hc
  have htop : top.isEmpty = false := by
    cases top with
    | nil => exact absurd hr0 (List.not_mem_nil r0)
    | cons a l => rfl
  have hparts : (top.filterMap (contribution (buildZScores df))).isEmpty = false := by
    obtain ⟨zl, zg, hl, hg⟩ := hasBoth_true hb0
    have hmem : _ ∈ top.filterMap (contribution (buildZScores df)) :=
      List.mem_filterMap.mpr ⟨r0, hr0, contribution_eq _ r0 zl zg hl hg⟩
    cases hlist : top.filterMap (contribution (buildZScores df)) with
    | nil =>
      rw [hlist] at hmem
      exact absurd hmem (List.not_mem_nil _)
    | cons a l => rfl
  simp only [buildCompositeSignal, htop, Bool.false_eq_true, if_false, hparts]
  by_cases hw : ((top.filterMap (contribution (buildZScores df))).map Prod.snd).sum = 0
  · rw [if_pos hw]
    have hweight : amendedWeight (buildZScores df) top = 0 := by
      rw [← weights_sum]
      exact hw
    have hraw : amendedRaw df top = (List.range (numRows df)).map (fun _ => (0 : ℝ)) := by
      unfold amendedRaw
      refine List.map_congr_left (fun t _ => ?_)
      rw [hweight, div_zero]
    rw [hraw, range_map_const, renormalize_replicate_zero, range_map_const_none]
  · rw [if_neg hw]
    congr 1
    unfold amendedRaw
    refine List.map_congr_left (fun t ht => ?_)
    rw [term_sum (buildZScores df) (numRows df) t (List.mem_range.mp ht) top hcols,
      weights_sum]

theorem listMean_n101 : listMean [(-1 : ℝ), 0, 1] = 0 := by
  norm_num [listMean]

theorem sumSqDev_n101 : sumSqDev [(-1 : ℝ), 0, 1] = 2 := by
  unfold sumSqDev
  rw [listMean_n101]
  show ∑ i ∈ Finset.range 3, _ = 2
  rw [Finset.sum_range_succ, Finset.sum_range_succ, Finset.sum_range_one]
  norm_num

theorem sampleStd_n101 : sampleStd [(-1 : ℝ), 0, 1] = 1 := by
  unfold sampleStd
  rw [sumSqDev_n101]
  norm_num

theorem listMean_halves : listMean [(1 : ℝ) / 2, 0, -(1 / 2)] = 0 := by
  norm_num [listMean]

theorem sumSqDev_halves : sumSqDev [(1 : ℝ) / 2, 0, -(1 / 2)] = 1 / 2 := by
  unfold sumSqDev
  rw [listMean_halves]
  show ∑ i ∈ Finset.range 3, _ = 1 / 2
  rw [Finset.sum_range_succ, Finset.sum_range_succ, Finset.sum_range_one]
  norm_num

theorem sampleStd_halves : sampleStd [(1 : ℝ) / 2, 0, -(1 / 2)] = 1 / 2 := by
  unfold sampleStd
  rw [sumSqDev_halves]
  have h : (1 : ℝ) / 2 / (([(1 : ℝ) / 2, 0, -(1 / 2)].length : ℝ) - 1) = (1 / 2) ^ 2 := by
    norm_num
  rw [h, Real.sqrt_sq (by norm_num)]

theorem renorm_halves :
    renormalize [(1 : ℝ) / 2, 0, -(1 / 2)] = [some 1, some 0, some (-1)] := by
  unfold renormalize stdPandas
  rw [if_neg (by norm_num), sampleStd_halves, listMean_halves]
  norm_num

theorem buildZScores_dfC1 :
    buildZScores dfC1 = [("A", [-1, 0, 1]), ("B", [-1, 0, 1])] := by
  unfold buildZScores dfC1
  rw [List.filterMap_cons, List.filterMap_cons, List.filterMap_nil]
  norm_num [zscoreColumn_012]

/-- C1 (counterexample): one relationship with correlation −1/2 at lag
0 over the table whose z-columns are both `[-1, 0, 1]`.  The claimed
formula `Σ(w·ẑ)/Σw` gives the z-column back and re-normalizes to
`[-1, 0, 1]`; the code multiplies the contribution by the signed
correlation as well, producing the sign-flipped `[1, 0, -1]`. -/
theorem C1_counterexample :
    buildCompositeSignal dfC1 [rC1] = [some 1, some 0, some (-1)] ∧
    specComposite dfC1 [rC1] = [some (-1), some 0, some 1] ∧
    (([some (1 : ℝ), some 0, some (-1)] : List (Option ℝ)) ≠
      [some (-1), some 0, some 1]) := by
  have hl1 : (buildZScores dfC1).lookup rC1.leadSeries = some [-1, 0, 1] := by
    rw [buildZScores_dfC1]
    rfl
  have hg1 : (buildZScores dfC1).lookup rC1.lagSeries = some [-1, 0, 1] := by
    rw [buildZScores_dfC1]
    rfl
  refine ⟨?_, ?_, by norm_num⟩
  · have hcontrib : contribution (buildZScores dfC1) rC1 =
        some ([some ((1 : ℝ) / 2), some 0, some (-(1 / 2))], 1 / 2) := by
      rw [contribution_eq _ _ _ _ hl1 hg1]
      norm_num [rC1, List.range_succ]
    refine Eq.trans ?_ renorm_halves
    simp only [buildCompositeSignal, List.filterMap_cons, hcontrib, List.filterMap_nil,
      List.isEmpty_cons, Bool.false_eq_true, if_false, List.map_cons, List.map_nil,
      List.sum_cons, List.sum_nil]
    rw [if_neg (by norm_num)]
    congr 1
    rw [show numRows dfC1 = 3 from rfl, show List.range 3 = [0, 1, 2] from rfl]
    norm_num
  · have hsp : specPart (buildZScores dfC1) rC1 =
        some ([some (-1 : ℝ), some 0, some 1], 1 / 2) := by
      unfold specPart
      rw [hl1, hg1]
      norm_num [rC1]
    have hcomb : specCombine [([some (-1 : ℝ), some 0, some 1], 1 / 2)] 3 =
        [some (-1), some 0, some 1] := by
      unfold specCombine
      rw [show List.range 3 = [0, 1, 2] from rfl]
      norm_num [List.filterMap_cons]
    simp only [specComposite, List.filterMap_cons, hsp, List.filterMap_nil]
    rw [show numRows dfC1 = 3 from rfl, hcomb]
    simp only [specRenormalize]
    rw [show ([some (-1 : ℝ), some 0, some 1].filterMap id) = [(-1 : ℝ), 0, 1] from rfl]
    rw [sampleStd_n101, if_neg one_ne_zero, listMean_n101]
    norm_num

/-- C1 (witness): the amended composite theorem applied to the
concrete table `dfC4` and the single relationship `rC4`. -/
theorem C1_witness :
    ((∀ c ∈ dfC4, c.2.length = numRows dfC4) ∧
      (∃ r ∈ [rC4], hasBoth (buildZScores dfC4) r = true)) ∧
    buildCompositeSignal dfC4 [rC4] = renormalize (amendedRaw dfC4 [rC4]) := by
  have h1 : ∀ c ∈ dfC4, c.2.length = numRows dfC4 := by
    intro c hc
    rcases List.mem_cons.mp hc with h | h
    · rw [h]
      rfl
    · rcases List.mem_cons.mp h with h2 | h2
      · rw [h2]
        rfl
      · exact absurd h2 (List.not_mem_nil c)
  have h2 : ∃ r ∈ [rC4], hasBoth (buildZScores dfC4) r = true :=
    ⟨rC4, List.mem_cons_self _ _, by unfold hasBoth; rw [buildZScores_dfC4]; rfl⟩
  exact ⟨⟨h1, h2⟩, C1_composite_weighting dfC4 [rC4] h1 h2⟩

end Mentat
